import Mathlib

/-!
Shallow embedding of the spam/ham training notebook
(`src/notebook/machineLearning.ipynb`).

The notebook is straight-line glue code around library calls.  We embed:
  * the Keras text preprocessing actually invoked (`Tokenizer(num_words=280)`,
    `fit_on_texts`, `texts_to_sequences`, `pad_sequences(maxlen=300)` with the
    default pre-padding/pre-truncation, `to_categorical`),
  * scikit-learn's `train_test_split(test_size=0.33, random_state=42)`,
    parametrised by the seeded permutation it draws,
  * the notebook's own constants and glue (`labelLegend`,
    `labelLegendInverted`, the pickled bundle, `metadataForExport`,
    the model/fit configuration, `predictSpamStatus`).

Machine floats never reach the properties below: label matrices use 0/1
naturals, dropout rates are rationals, and the trained network's numeric
output is an abstract function (its shape, not its values, is specified).
-/

/-- The notebook constant `MAX_NUM_WORDS = 280` (cell 11). -/
def MAX_NUM_WORDS : Nat := 280

/-- The notebook constant `MAX_SEQ_LENGTH = 300` (cell 15). -/
def MAX_SEQ_LENGTH : Nat := 300

/-- The default filter characters of Keras `text_to_word_sequence`:
ASCII punctuation plus tab and newline, each replaced by the split
character (space) before splitting. -/
def kerasFilters : List Char :=
  ['!', '"', '#', '$', '%', '&', '(', ')', '*', '+', ',', '-', '.', '/',
   ':', ';', '<', '=', '>', '?', '@', '[', '\\', ']', '^', '_',
   Char.ofNat 96, Char.ofNat 123, '|', Char.ofNat 125, '~', '\t', '\n']

/-- Splits a character list on spaces, dropping empty fragments, as Python's
`[i for i in text.split(split) if i]` does. -/
def splitWordsAux : List Char → List Char → List (List Char)
  | [], acc => if acc.isEmpty then [] else [acc.reverse]
  | c :: rest, acc =>
      if c = ' ' then
        if acc.isEmpty then splitWordsAux rest []
        else acc.reverse :: splitWordsAux rest []
      else splitWordsAux rest (c :: acc)

/-- Keras `text_to_word_sequence` with default arguments: lower-case the
text, replace filter characters by the split character, split on it and
drop empty fragments. -/
def textToWordSequence (s : String) : List String :=
  let cleaned := s.toList.map (fun c =>
    let lc := c.toLower
    if lc ∈ kerasFilters then ' ' else lc)
  (splitWordsAux cleaned []).map (fun w => String.mk w)

/-- One step of Keras word counting: bump the count of `w`, appending it
with count 1 on first appearance (Python keeps an insertion-ordered dict). -/
def addWord (counts : List (String × Nat)) (w : String) : List (String × Nat) :=
  match counts with
  | [] => [(w, 1)]
  | (x, c) :: rest => if x = w then (x, c + 1) :: rest else (x, c) :: addWord rest w

/-- The word counts accumulated by `fit_on_texts` over a corpus, in order of
first appearance. -/
def wordCounts (texts : List String) : List (String × Nat) :=
  texts.foldl (fun acc t => (textToWordSequence t).foldl addWord acc) []

/-- Stable insertion keeping counts in non-increasing order: a new entry goes
after every entry whose count is at least as large, which is exactly the
order Python's stable `sort(key=count, reverse=True)` produces. -/
def insertByCount (x : String × Nat) : List (String × Nat) → List (String × Nat)
  | [] => [x]
  | y :: ys => if y.2 < x.2 then x :: y :: ys else y :: insertByCount x ys

/-- Stable sort of the word counts by decreasing count. -/
def sortByCountDesc (l : List (String × Nat)) : List (String × Nat) :=
  l.foldl (fun acc x => insertByCount x acc) []

/-- The `word_index` built by Keras `fit_on_texts`: words sorted by
decreasing frequency (ties in first-appearance order), indexed from 1
(index 0 is reserved for padding).  Note that Keras does NOT truncate this
mapping to `num_words`; the cap is applied only in `texts_to_sequences`. -/
def buildWordIndex (texts : List String) : List (String × Nat) :=
  ((sortByCountDesc (wordCounts texts)).map Prod.fst).enum.map
    (fun p => (p.2, p.1 + 1))

/-- The state of a Keras `Tokenizer`: the `num_words` cap given at
construction and the `word_index` mapping. -/
structure Tokenizer where
  num_words : Nat
  word_index : List (String × Nat)
deriving Repr, DecidableEq

/-- A freshly constructed `Tokenizer(num_words=...)` (cell 11): empty
`word_index`. -/
def Tokenizer.init (numWords : Nat) : Tokenizer :=
  ⟨numWords, []⟩

/-- Keras `tokenizer.fit_on_texts(texts)` (cell 11): rebuild `word_index`
from the corpus; `num_words` is untouched. -/
def Tokenizer.fit_on_texts (tok : Tokenizer) (texts : List String) : Tokenizer :=
  ⟨tok.num_words, buildWordIndex texts⟩

/-- The index Keras emits for a single word: look it up in `word_index`
and drop it when absent or when its index reaches `num_words`
(`if num_words and i >= num_words: continue`). -/
def Tokenizer.emit (tok : Tokenizer) (w : String) : Option Nat :=
  match List.lookup w tok.word_index with
  | some i => if i < tok.num_words then some i else none
  | none => none

/-- Keras `texts_to_sequences` on one text: word-sequence it and keep the
emitted indices, silently dropping the rest (no placeholder: the tokenizer
was built without `oov_token`). -/
def Tokenizer.seqOne (tok : Tokenizer) (t : String) : List Nat :=
  (textToWordSequence t).filterMap tok.emit

/-- Keras `tokenizer.texts_to_sequences(texts)` (cells 11 and 47). -/
def Tokenizer.texts_to_sequences (tok : Tokenizer) (texts : List String) : List (List Nat) :=
  texts.map tok.seqOne

/-- Keras `pad_sequences` on a single sequence with the default
`padding='pre'`, `truncating='pre'`, `value=0`: keep the last `maxlen`
entries and left-pad with zeroes up to `maxlen`. -/
def padOne (maxlen : Nat) (s : List Nat) : List Nat :=
  let t := s.drop (s.length - maxlen)
  List.replicate (maxlen - t.length) 0 ++ t

/-- Keras `pad_sequences(sequences, maxlen=...)` (cells 15 and 47). -/
def pad_sequences (seqs : List (List Nat)) (maxlen : Nat) : List (List Nat) :=
  seqs.map (padOne maxlen)

/-- Keras `to_categorical(y)` with `num_classes` inferred as `max(y)+1`:
each label becomes a row with a single 1 at its index. -/
def to_categorical (ys : List Nat) : List (List Nat) :=
  let numClasses := ys.foldl max 0 + 1
  ys.map (fun i => (List.range numClasses).map (fun j => if j = i then 1 else 0))

/-- The notebook's `labelLegend = {'ham': 0, 'spam': 1}` (cell 7). -/
def labelLegend : List (String × Nat) := [("ham", 0), ("spam", 1)]

/-- The notebook's `labelLegendInverted = {'%i' % v: k for k, v in
labelLegend.items()}` (cell 7): string keys `"0"`, `"1"`. -/
def labelLegendInverted : List (String × String) :=
  labelLegend.map (fun kv => (toString kv.2, kv.1))

/-- The number of test rows chosen by scikit-learn for `test_size=0.33`:
`ceil(0.33 * n)`. -/
def nTestOf (n : Nat) : Nat := (33 * n + 99) / 100

/-- scikit-learn `train_test_split(X, y, test_size=0.33, random_state=42)`
(cell 23), parametrised by the permutation `perm` of `[0, n)` that the
seeded generator draws: the first `ceil(0.33*n)` shuffled indices form the
test partition and the rest the train partition, the same index lists being
applied to `X` and to `y`. -/
def train_test_split (X : List (List Nat)) (y : List (List Nat)) (perm : List Nat) :
    List (List Nat) × List (List Nat) × List (List Nat) × List (List Nat) :=
  let nTest := nTestOf X.length
  let testIdx := perm.take nTest
  let trainIdx := perm.drop nTest
  (trainIdx.filterMap (fun i => X[i]?), testIdx.filterMap (fun i => X[i]?),
   trainIdx.filterMap (fun i => y[i]?), testIdx.filterMap (fun i => y[i]?))

/-- The pickled bundle `trainingData` written by the dataset preparer
(cell 27). -/
structure TrainingData where
  X_train : List (List Nat)
  X_test : List (List Nat)
  y_train : List (List Nat)
  y_test : List (List Nat)
  max_words : Nat
  max_seq_length : Nat
  label_legend : List (String × Nat)
  label_legend_inverted : List (String × String)
  tokenizer : Tokenizer
deriving Repr, DecidableEq

/-- The comprehension `labelsAsInt = [labelLegend[x] for x in labels]`
(cell 7): `labelLegend[x]` raises `KeyError` on an unknown label, hence the
`Option`. -/
def labelsToInts : List String → Option (List Nat)
  | [] => some []
  | l :: rest =>
    match List.lookup l labelLegend with
    | none => none
    | some i =>
      match labelsToInts rest with
      | none => none
      | some is => some (i :: is)

/-- The whole dataset-preparation stage (cells 7, 11, 15, 19, 23, 27) as one
function of the raw CSV columns and the split permutation. -/
def prepareDataset (labels texts : List String) (perm : List Nat) : Option TrainingData :=
  match labelsToInts labels with
  | none => none
  | some labelsAsInt =>
    let tokenizer := (Tokenizer.init MAX_NUM_WORDS).fit_on_texts texts
    let sequences := tokenizer.texts_to_sequences texts
    let X := pad_sequences sequences MAX_SEQ_LENGTH
    let y := to_categorical labelsAsInt
    let split := train_test_split X y perm
    some ⟨split.1, split.2.1, split.2.2.1, split.2.2.2,
          MAX_NUM_WORDS, MAX_SEQ_LENGTH, labelLegend, labelLegendInverted, tokenizer⟩

/-- The architecture built in cell 35: `Embedding(maxNumWords, 128,
input_length=X_train.shape[1])`, `SpatialDropout1D(0.4)`, `LSTM(196,
dropout=0.3, recurrent_dropout=0.3)`, `Dense(2, activation='softmax')`,
compiled with `loss='categorical_crossentropy'`, `optimizer='adam'`. -/
structure ModelConfig where
  embedInputDim : Nat
  embedOutputDim : Nat
  embedInputLength : Nat
  spatialDropoutRate : ℚ
  lstmUnits : Nat
  lstmDropout : ℚ
  lstmRecurrentDropout : ℚ
  denseUnits : Nat
  denseActivation : String
  loss : String
  optimizer : String
deriving Repr, DecidableEq

/-- Cell 35's model construction on the loaded bundle.  `X_train.shape[1]`
is the common row length of the train matrix. -/
def buildModel (data : TrainingData) : ModelConfig :=
  let embedDim := 128
  let LstmOut := 196
  { embedInputDim := data.max_words
    embedOutputDim := embedDim
    embedInputLength := (data.X_train.headD []).length
    spatialDropoutRate := 4 / 10
    lstmUnits := LstmOut
    lstmDropout := 3 / 10
    lstmRecurrentDropout := 3 / 10
    denseUnits := 2
    denseActivation := "softmax"
    loss := "categorical_crossentropy"
    optimizer := "adam" }

/-- The training call of cell 37: `model.fit(X_train, y_train,
validation_data=(X_test, y_test), batch_size=32, epochs=3)`. -/
structure FitRun where
  batch_size : Nat
  epochs : Nat
  validation_X : List (List Nat)
  validation_y : List (List Nat)
deriving Repr, DecidableEq

/-- Cell 37's fit configuration on the loaded bundle. -/
def fitRun (data : TrainingData) : FitRun :=
  let batchSize := 32
  let epochs := 3
  ⟨batchSize, epochs, data.X_test, data.y_test⟩

/-- The architecture as the spec states it: embedding vocabulary-cap → 128,
spatial dropout, one LSTM of 196 units with input and recurrent dropout 0.3,
dense 2-unit softmax output, categorical cross-entropy loss, Adam optimizer,
over length-300 input rows. -/
def specModelConfig : ModelConfig :=
  { embedInputDim := 280
    embedOutputDim := 128
    embedInputLength := 300
    spatialDropoutRate := 4 / 10
    lstmUnits := 196
    lstmDropout := 3 / 10
    lstmRecurrentDropout := 3 / 10
    denseUnits := 2
    denseActivation := "softmax"
    loss := "categorical_crossentropy"
    optimizer := "adam" }

/-- The metadata JSON written in cell 42 (`metadataForExport`): a structure
with exactly the four exported keys. -/
structure Metadata where
  label_legend_inverted : List (String × String)
  label_legend : List (String × Nat)
  max_seq_length : Nat
  max_words : Nat
deriving Repr, DecidableEq

/-- Cell 42's `metadataForExport`, built from the fields the training stage
loaded back out of the pickled bundle in cell 33. -/
def metadataForExport (data : TrainingData) : Metadata :=
  ⟨data.label_legend_inverted, data.label_legend, data.max_seq_length, data.max_words⟩

/-- The inference helper `predictSpamStatus` of cell 47.  The trained
network itself is abstracted as `spamModel : List Nat → ℚ × ℚ`, one row of
padded indices in, the two softmax outputs of the `Dense(2)` head out.
`pLabelLegendInverted[str(i)]` raises `KeyError` on a missing key and
`yOutput[0]` raises `IndexError` on an empty batch, hence the `Option`. -/
def predictSpamStatus (text : String) (spamModel : List Nat → ℚ × ℚ)
    (pMaxSequence : Nat) (pLabelLegendInverted : List (String × String))
    (pTokenizer : Tokenizer) : Option (List (String × ℚ)) :=
  let sequences := pTokenizer.texts_to_sequences [text]
  let xInput := pad_sequences sequences pMaxSequence
  let yOutput := xInput.map spamModel
  match yOutput with
  | [] => none
  | preds :: _ =>
    ([preds.1, preds.2].enum).mapM (fun q =>
      (List.lookup (toString q.1) pLabelLegendInverted).map (fun name => (name, q.2)))

/-- The tokenize-and-pad front end of `predictSpamStatus` (cell 47):
`xInput = pad_sequences(pTokenizer.texts_to_sequences([text]),
maxlen=pMaxSequence)`, exactly the transformation the preparer applies to
each corpus text. -/
def inferenceInput (pTokenizer : Tokenizer) (pMaxSequence : Nat) (text : String) :
    List (List Nat) :=
  pad_sequences (pTokenizer.texts_to_sequences [text]) pMaxSequence

/-- Seventeen distinct lower-case letters, enough to form more than 280
distinct two-letter words. -/
def qLetters : List Char :=
  ['a', 'b', 'c', 'd', 'e', 'f', 'g', 'h', 'i', 'j', 'k', 'l', 'm', 'n', 'o', 'p', 'q']

/-- A corpus of 289 texts, each a distinct two-letter word over `qLetters`. -/
def capCorpus : List String :=
  (qLetters.product qLetters).map (fun p => String.mk [p.1, p.2])

/-- The training stage exports the tokenizer exactly as it came out of the
pickled bundle (cells 33 and 44: `tokenizer = data['tokenizer']`, then
`tokenizer.to_json()` with no intervening mutation). -/
def exportedTokenizer (data : TrainingData) : Tokenizer :=
  data.tokenizer

/-- Fixed concrete inputs used by the closed witness theorems below. -/
def labels0 : List String := ["ham", "spam", "spam"]

/-- Fixed concrete texts used by the closed witness theorems below. -/
def texts0 : List String := ["a b", "c", "a"]

/-- A fixed permutation of `[0, 3)` standing for the seeded shuffle on the
three-row witness input. -/
def perm0 : List Nat := [2, 0, 1]

/-- An arbitrary bundle used only as the `Option.getD` default in witnesses. -/
def dummyData : TrainingData :=
  ⟨[], [], [], [], 0, 0, [], [], ⟨0, []⟩⟩

/-- The bundle the preparer produces on the witness inputs. -/
def data0 : TrainingData :=
  (prepareDataset labels0 texts0 perm0).getD dummyData

/-- The tokenizer the preparer builds: `Tokenizer(num_words=MAX_NUM_WORDS)`
followed by `fit_on_texts(texts)` (cell 11). -/
def preparerTokenizer (texts : List String) : Tokenizer :=
  (Tokenizer.init MAX_NUM_WORDS).fit_on_texts texts

/-- The sequence matrix `X` of cell 15: the tokenized corpus padded to
`MAX_SEQ_LENGTH`. -/
def prepX (texts : List String) : List (List Nat) :=
  pad_sequences ((preparerTokenizer texts).texts_to_sequences texts) MAX_SEQ_LENGTH

/-- Concrete sequence matrix used by the split witness. -/
def X0 : List (List Nat) := [[1], [2], [3]]

/-- Concrete label matrix used by the split witness. -/
def y0 : List (List Nat) := [[1, 0], [0, 1], [0, 1]]

lemma length_insertByCount (x : String × Nat) (l : List (String × Nat)) :
    (insertByCount x l).length = l.length + 1 := by
  induction l with
  | nil => rfl
  | cons y ys ih =>
    unfold insertByCount
    by_cases h : y.2 < x.2 <;> simp [h, ih]

lemma length_foldl_insertByCount (l : List (String × Nat)) :
    ∀ acc : List (String × Nat),
      (l.foldl (fun a x => insertByCount x a) acc).length = acc.length + l.length := by
  induction l with
  | nil => intro acc; rfl
  | cons x xs ih =>
    intro acc
    simp only [List.foldl_cons, ih, length_insertByCount, List.length_cons]
    omega

lemma length_sortByCountDesc (l : List (String × Nat)) :
    (sortByCountDesc l).length = l.length := by
  simpa [sortByCountDesc] using length_foldl_insertByCount l []

lemma length_buildWordIndex (texts : List String) :
    (buildWordIndex texts).length = (wordCounts texts).length := by
  simp [buildWordIndex, length_sortByCountDesc]

lemma addWord_of_not_mem {counts : List (String × Nat)} {w : String}
    (h : w ∉ counts.map Prod.fst) : addWord counts w = counts ++ [(w, 1)] := by
  induction counts with
  | nil => rfl
  | cons p rest ih =>
    simp only [List.map_cons, List.mem_cons] at h
    push_neg at h
    unfold addWord
    rw [if_neg (fun hq => h.1 hq.symm), ih h.2]
    rfl

lemma foldl_addWord_fresh (ws : List String) :
    ∀ counts : List (String × Nat), ws.Nodup →
      (∀ w ∈ ws, w ∉ counts.map Prod.fst) →
      (ws.foldl addWord counts).length = counts.length + ws.length := by
  induction ws with
  | nil => intro counts _ _; rfl
  | cons w rest ih =>
    intro counts hnd hfresh
    have hw : w ∉ counts.map Prod.fst := hfresh w (by simp)
    have hstep : addWord counts w = counts ++ [(w, 1)] := addWord_of_not_mem hw
    have hnd2 := (List.nodup_cons.mp hnd)
    have hfresh2 : ∀ x ∈ rest, x ∉ (addWord counts w).map Prod.fst := by
      intro x hx
      rw [hstep]
      simp only [List.map_append, List.mem_append, List.map_cons, List.map_nil,
        List.mem_singleton]
      rintro (hc | hc)
      · exact hfresh x (by simp [hx]) hc
      · exact hnd2.1 (hc ▸ hx)
    simp only [List.foldl_cons]
    rw [ih (addWord counts w) hnd2.2 hfresh2, hstep]
    simp only [List.length_append, List.length_cons, List.length_nil]
    omega

lemma textToWordSequence_two (c d : Char)
    (hc1 : c.toLower = c) (hc2 : c ∉ kerasFilters) (hc3 : c ≠ ' ')
    (hd1 : d.toLower = d) (hd2 : d ∉ kerasFilters) (hd3 : d ≠ ' ') :
    textToWordSequence (String.mk [c, d]) = [String.mk [c, d]] := by
  have htl : (String.mk [c, d]).toList = [c, d] := rfl
  simp only [textToWordSequence, htl, List.map_cons, List.map_nil, hc1, hd1]
  rw [if_neg hc2, if_neg hd2]
  simp [splitWordsAux, hc3, hd3]

lemma wordCounts_of_singletons (texts : List String)
    (h : ∀ t ∈ texts, textToWordSequence t = [t]) :
    wordCounts texts = texts.foldl addWord [] := by
  unfold wordCounts
  suffices hgen : ∀ acc, texts.foldl (fun acc t => (textToWordSequence t).foldl addWord acc) acc
      = texts.foldl addWord acc from hgen []
  induction texts with
  | nil => intro acc; rfl
  | cons t rest ih =>
    intro acc
    simp only [List.foldl_cons, h t (by simp)]
    exact ih (fun x hx => h x (by simp [hx])) (addWord acc t)

lemma capCorpus_nodup : capCorpus.Nodup := by
  have hq : qLetters.Nodup := by decide
  refine List.Nodup.map_on ?_ (hq.product hq)
  rintro ⟨a, b⟩ _ ⟨a2, b2⟩ _ h
  have : [a, b] = [a2, b2] := congrArg String.data h
  simp only [List.cons.injEq, and_true] at this
  simp [this.1, this.2]

lemma capCorpus_singletons : ∀ t ∈ capCorpus, textToWordSequence t = [t] := by
  have hq1 : ∀ c ∈ qLetters, c.toLower = c := by decide
  have hq2 : ∀ c ∈ qLetters, c ∉ kerasFilters := by decide
  have hq3 : ∀ c ∈ qLetters, c ≠ ' ' := by decide
  intro t ht
  simp only [capCorpus, List.mem_map] at ht
  obtain ⟨p, hp, rfl⟩ := ht
  have hmem := List.mem_product.mp hp
  exact textToWordSequence_two p.1 p.2
    (hq1 _ hmem.1) (hq2 _ hmem.1) (hq3 _ hmem.1)
    (hq1 _ hmem.2) (hq2 _ hmem.2) (hq3 _ hmem.2)

set_option maxRecDepth 4000 in
lemma capCorpus_length : capCorpus.length = 289 := by
  decide

lemma emit_lt_num_words {tok : Tokenizer} {w : String} {i : Nat}
    (h : tok.emit w = some i) : i < tok.num_words := by
  unfold Tokenizer.emit at h
  split at h
  · split at h
    · simp only [Option.some.injEq] at h
      omega
    · exact absurd h (by simp)
  · exact absurd h (by simp)

lemma seqOne_lt (tok : Tokenizer) (t : String) : ∀ i ∈ tok.seqOne t, i < tok.num_words := by
  intro i hi
  simp only [Tokenizer.seqOne, List.mem_filterMap] at hi
  obtain ⟨w, _, hw⟩ := hi
  exact emit_lt_num_words hw

lemma lookup_mem {α β : Type} [BEq α] [LawfulBEq α] {a : α} {b : β}
    {l : List (α × β)} (h : List.lookup a l = some b) : (a, b) ∈ l := by
  induction l with
  | nil => simp [List.lookup] at h
  | cons p rest ih =>
    rw [List.lookup] at h
    by_cases hab : a == p.1
    · simp only [hab, Option.some.injEq] at h
      have ha : a = p.1 := eq_of_beq hab
      have : (a, b) = p := by rw [ha, ← h]
      rw [this]
      exact List.mem_cons_self p rest
    · simp only [hab] at h
      exact List.mem_cons_of_mem _ (ih h)

lemma lookup_buildWordIndex_pos {texts : List String} {w : String} {i : Nat}
    (h : List.lookup w (buildWordIndex texts) = some i) : 1 ≤ i := by
  have hmem := lookup_mem h
  simp only [buildWordIndex, List.mem_map] at hmem
  obtain ⟨p, _, hp⟩ := hmem
  have : i = p.1 + 1 := (congrArg Prod.snd hp).symm
  omega

lemma emit_pos {texts : List String} {numWords : Nat} {w : String} {i : Nat}
    (h : ((Tokenizer.init numWords).fit_on_texts texts).emit w = some i) : 1 ≤ i := by
  unfold Tokenizer.emit at h
  split at h
  · split at h
    · simp only [Option.some.injEq] at h
      subst h
      exact lookup_buildWordIndex_pos (by assumption)
    · exact absurd h (by simp)
  · exact absurd h (by simp)


lemma padOne_length (m : Nat) (s : List Nat) : (padOne m s).length = m := by
  unfold padOne
  simp only [List.length_append, List.length_replicate, List.length_drop]
  omega

lemma padOne_of_le {m : Nat} {s : List Nat} (h : s.length ≤ m) :
    padOne m s = List.replicate (m - s.length) 0 ++ s := by
  unfold padOne
  rw [Nat.sub_eq_zero_of_le h, List.drop_zero]

lemma padOne_of_gt {m : Nat} {s : List Nat} (h : m < s.length) :
    padOne m s = s.drop (s.length - m) := by
  simp only [padOne, List.length_drop]
  have hz : m - (s.length - (s.length - m)) = 0 := by omega
  rw [hz]
  simp

lemma length_filterMap_eq_length_filter {α β : Type} (f : α → Option β) (l : List α) :
    (l.filterMap f).length = (l.filter (fun a => (f a).isSome)).length := by
  induction l with
  | nil => rfl
  | cons x xs ih =>
    cases hx : f x <;> simp [List.filterMap_cons, hx, List.filter_cons, ih]

/-- C4, counterexample: the word-to-index mapping is NOT capped at the
configured maximum size.  On a corpus of 289 distinct words the tokenizer
constructed with `num_words = MAX_NUM_WORDS = 280` ends up with a
`word_index` of 289 entries, exceeding the cap: Keras applies `num_words`
only during sequence conversion, never to `word_index` itself. -/
theorem word_index_exceeds_cap :
    MAX_NUM_WORDS < ((Tokenizer.init MAX_NUM_WORDS).fit_on_texts capCorpus).word_index.length := by
  simp only [Tokenizer.fit_on_texts]
  rw [length_buildWordIndex, wordCounts_of_singletons capCorpus capCorpus_singletons,
    foldl_addWord_fresh capCorpus [] capCorpus_nodup (by simp), capCorpus_length]
  decide

/-- C4 (amended): the tokenizer's word-to-index mapping is built exactly
once, by `fit_on_texts` on the corpus, and no subsequent operation of the
pipeline (sequence conversion, padding, splitting, bundling, training-stage
export) modifies it: the bundled and the exported tokenizer are exactly the
fitted one.  The configured maximum size does not cap the mapping itself
(see the counterexample); it caps the emitted indices: every index in a
produced sequence is below `MAX_NUM_WORDS`. -/
theorem tokenizer_built_once_and_frozen (labels texts : List String) (perm : List Nat)
    (data : TrainingData) (h : prepareDataset labels texts perm = some data) :
    data.tokenizer = (Tokenizer.init MAX_NUM_WORDS).fit_on_texts texts ∧
    exportedTokenizer data = (Tokenizer.init MAX_NUM_WORDS).fit_on_texts texts ∧
    ∀ s ∈ data.tokenizer.texts_to_sequences texts, ∀ i ∈ s, i < MAX_NUM_WORDS := by
  unfold prepareDataset at h
  split at h
  · exact absurd h (by simp)
  · simp only [Option.some.injEq] at h
    subst h
    refine ⟨rfl, rfl, ?_⟩
    intro s hs i hi
    simp only [Tokenizer.texts_to_sequences, List.mem_map] at hs
    obtain ⟨t, _, rfl⟩ := hs
    simpa using seqOne_lt _ t i hi

set_option maxRecDepth 40000 in
/-- Closed witness for `tokenizer_built_once_and_frozen` on the concrete
three-row input. -/
theorem tokenizer_built_once_and_frozen_witness :
    data0.tokenizer = (Tokenizer.init MAX_NUM_WORDS).fit_on_texts texts0 ∧
    exportedTokenizer data0 = (Tokenizer.init MAX_NUM_WORDS).fit_on_texts texts0 ∧
    ∀ s ∈ data0.tokenizer.texts_to_sequences texts0, ∀ i ∈ s, i < MAX_NUM_WORDS :=
  tokenizer_built_once_and_frozen labels0 texts0 perm0 data0 (by rfl)


/-- C1: every row of the sequence matrix `X = pad_sequences(sequences,
maxlen=MAX_SEQ_LENGTH)` built by the dataset preparer has length exactly
`MAX_SEQ_LENGTH = 300`: the row of a tokenized sequence not longer than 300
is that sequence left-padded with leading zeroes, and the row of a longer
one is its truncation to the last 300 entries. -/
theorem X_rows_fixed_length (texts : List String) (row : List Nat)
    (h : row ∈ prepX texts) :
    row.length = MAX_SEQ_LENGTH ∧
    ∃ s ∈ (preparerTokenizer texts).texts_to_sequences texts,
      (s.length ≤ MAX_SEQ_LENGTH → row = List.replicate (MAX_SEQ_LENGTH - s.length) 0 ++ s) ∧
      (MAX_SEQ_LENGTH < s.length → row = s.drop (s.length - MAX_SEQ_LENGTH)) := by
  simp only [prepX, pad_sequences, List.mem_map] at h
  obtain ⟨s, hs, rfl⟩ := h
  exact ⟨padOne_length _ _, s, hs, fun hle => padOne_of_le hle, fun hgt => padOne_of_gt hgt⟩

set_option maxRecDepth 40000 in
/-- Closed witness for `X_rows_fixed_length` at the first row of the
concrete three-text corpus. -/
theorem X_rows_fixed_length_witness :
    ((prepX texts0).headD []).length = MAX_SEQ_LENGTH ∧
    ∃ s ∈ (preparerTokenizer texts0).texts_to_sequences texts0,
      (s.length ≤ MAX_SEQ_LENGTH →
        (prepX texts0).headD [] = List.replicate (MAX_SEQ_LENGTH - s.length) 0 ++ s) ∧
      (MAX_SEQ_LENGTH < s.length →
        (prepX texts0).headD [] = s.drop (s.length - MAX_SEQ_LENGTH)) :=
  X_rows_fixed_length texts0 ((prepX texts0).headD []) (by decide)

/-- C5: with the preparer's fitted tokenizer, every index appearing in a
produced sequence is a positive integer strictly below the configured cap
`MAX_NUM_WORDS = 280`; each comes from an in-vocabulary word of the text;
and out-of-vocabulary words are dropped with no placeholder inserted: the
sequence has exactly one entry per word whose capped lookup succeeds. -/
theorem sequence_indices_in_range (texts : List String) (t : String) :
    (∀ i ∈ (preparerTokenizer texts).seqOne t, 1 ≤ i ∧ i < MAX_NUM_WORDS) ∧
    ((preparerTokenizer texts).seqOne t).length
      = ((textToWordSequence t).filter
          (fun w => ((preparerTokenizer texts).emit w).isSome)).length ∧
    (∀ i ∈ (preparerTokenizer texts).seqOne t, ∃ w ∈ textToWordSequence t,
      (preparerTokenizer texts).emit w = some i) := by
  refine ⟨?_, length_filterMap_eq_length_filter _ _, ?_⟩
  · intro i hi
    simp only [Tokenizer.seqOne, List.mem_filterMap] at hi
    obtain ⟨w, _, hw⟩ := hi
    constructor
    · simp only [preparerTokenizer] at hw
      exact emit_pos hw
    · exact emit_lt_num_words hw
  · intro i hi
    simp only [Tokenizer.seqOne, List.mem_filterMap] at hi
    obtain ⟨w, hwmem, hw⟩ := hi
    exact ⟨w, hwmem, hw⟩

lemma range_filterMap_getElem (l : List (List Nat)) :
    (List.range l.length).filterMap (fun i => l[i]?) = l := by
  induction l with
  | nil => rfl
  | cons x xs ih =>
    have h2 : ((fun i => (x :: xs)[i]?) ∘ Nat.succ) = (fun i => xs[i]?) := by
      funext i
      simp
    simp only [List.length_cons, List.range_succ_eq_map, List.filterMap_cons,
      List.getElem?_cons_zero, List.filterMap_map, h2, ih]

lemma filterMap_zip_getElem (X y : List (List Nat)) (idx : List Nat)
    (hlen : X.length = y.length) (hidx : ∀ i ∈ idx, i < X.length) :
    (idx.filterMap (fun i => X[i]?)).zip (idx.filterMap (fun i => y[i]?))
      = idx.filterMap (fun i => (X.zip y)[i]?) := by
  induction idx with
  | nil => rfl
  | cons i rest ih =>
    have hi : i < X.length := hidx i (by simp)
    have hiy : i < y.length := by omega
    have hzl : i < (X.zip y).length := by
      simp only [List.length_zip]
      omega
    have hrest : ∀ j ∈ rest, j < X.length := fun j hj => hidx j (by simp [hj])
    simp only [List.filterMap_cons, List.getElem?_eq_getElem hi, List.getElem?_eq_getElem hiy,
      List.getElem?_eq_getElem hzl, List.getElem_zip, List.zip_cons_cons, ih hrest]

/-- C2: for a length-matched `X`, `y` and any permutation `perm` of the row
indices (the seeded shuffle of `random_state=42`), the split
`train_test_split(X, y, test_size=0.33)` covers the rows exactly — the
train and test parts of `X` together are a permutation of `X`, likewise for
`y` — the underlying train and test index sets are disjoint, and `X` rows
stay in correspondence with their `y` rows: zipping the train (resp. test)
parts recovers exactly the selected rows of `X.zip y`. -/
theorem split_disjoint_covering (X y : List (List Nat)) (perm : List Nat)
    (hlen : X.length = y.length) (hperm : perm.Perm (List.range X.length)) :
    ((train_test_split X y perm).1 ++ (train_test_split X y perm).2.1).Perm X ∧
    ((train_test_split X y perm).2.2.1 ++ (train_test_split X y perm).2.2.2).Perm y ∧
    (perm.drop (nTestOf X.length)).Disjoint (perm.take (nTestOf X.length)) ∧
    (train_test_split X y perm).1.zip (train_test_split X y perm).2.2.1
      = (perm.drop (nTestOf X.length)).filterMap (fun i => (X.zip y)[i]?) ∧
    (train_test_split X y perm).2.1.zip (train_test_split X y perm).2.2.2
      = (perm.take (nTestOf X.length)).filterMap (fun i => (X.zip y)[i]?) := by
  set testIdx := perm.take (nTestOf X.length) with htest
  set trainIdx := perm.drop (nTestOf X.length) with htrain
  have hmem : ∀ i ∈ perm, i < X.length := by
    intro i hi
    have := hperm.mem_iff.mp hi
    simpa [List.mem_range] using this
  have hcat : (trainIdx ++ testIdx).Perm perm := by
    have h1 : testIdx ++ trainIdx = perm := List.take_append_drop _ perm
    exact h1 ▸ (@List.perm_append_comm _ trainIdx testIdx)
  have hcatRange : (trainIdx ++ testIdx).Perm (List.range X.length) := hcat.trans hperm
  have hnodup : perm.Nodup := hperm.nodup_iff.mpr (List.nodup_range _)
  have hdisj : trainIdx.Disjoint testIdx := by
    have h1 : testIdx ++ trainIdx = perm := List.take_append_drop _ perm
    have : (testIdx ++ trainIdx).Nodup := h1 ▸ hnodup
    exact (List.nodup_append.mp this).2.2.symm
  refine ⟨?_, ?_, hdisj, ?_, ?_⟩
  · have := hcatRange.filterMap (fun i => X[i]?)
    rw [range_filterMap_getElem X] at this
    simpa [train_test_split, List.filterMap_append] using this
  · have hy : (trainIdx ++ testIdx).Perm (List.range y.length) := hlen ▸ hcatRange
    have := hy.filterMap (fun i => y[i]?)
    rw [range_filterMap_getElem y] at this
    simpa [train_test_split, List.filterMap_append] using this
  · exact filterMap_zip_getElem X y trainIdx hlen
      (fun i hi => hmem i (List.mem_of_mem_drop hi))
  · exact filterMap_zip_getElem X y testIdx hlen
      (fun i hi => hmem i (List.mem_of_mem_take hi))

/-- Closed witness for `split_disjoint_covering` on three concrete rows and
the concrete permutation `[2, 0, 1]`. -/
theorem split_disjoint_covering_witness :
    ((train_test_split X0 y0 perm0).1 ++ (train_test_split X0 y0 perm0).2.1).Perm X0 ∧
    ((train_test_split X0 y0 perm0).2.2.1 ++ (train_test_split X0 y0 perm0).2.2.2).Perm y0 ∧
    (perm0.drop (nTestOf X0.length)).Disjoint (perm0.take (nTestOf X0.length)) ∧
    (train_test_split X0 y0 perm0).1.zip (train_test_split X0 y0 perm0).2.2.1
      = (perm0.drop (nTestOf X0.length)).filterMap (fun i => (X0.zip y0)[i]?) ∧
    (train_test_split X0 y0 perm0).2.1.zip (train_test_split X0 y0 perm0).2.2.2
      = (perm0.take (nTestOf X0.length)).filterMap (fun i => (X0.zip y0)[i]?) :=
  split_disjoint_covering X0 y0 perm0 (by decide) (by decide)

lemma foldl_max_eq_one (ys : List Nat) :
    ∀ a : Nat, a ≤ 1 → (∀ i ∈ ys, i ≤ 1) → (1 ∈ ys ∨ a = 1) →
      ys.foldl max a = 1 := by
  induction ys with
  | nil =>
    intro a _ _ h3
    rcases h3 with h3 | h3
    · exact absurd h3 (by simp)
    · simpa using h3
  | cons i rest ih =>
    intro a ha hall h3
    have hi : i ≤ 1 := hall i (by simp)
    have hmax : max a i ≤ 1 := Nat.max_le.mpr ⟨ha, hi⟩
    have hrest : ∀ j ∈ rest, j ≤ 1 := fun j hj => hall j (by simp [hj])
    simp only [List.foldl_cons]
    apply ih (max a i) hmax hrest
    rcases h3 with h3 | h3
    · rcases List.mem_cons.mp h3 with h4 | h4
      · right
        rw [← h4]
        omega
      · exact Or.inl h4
    · right
      subst h3
      omega

lemma labelsToInts_spec (labels : List String) :
    ∀ ys : List Nat, labelsToInts labels = some ys →
      ys.length = labels.length ∧
      (∀ (k : Nat) (l : String), labels[k]? = some l →
        ∃ i, List.lookup l labelLegend = some i ∧ ys[k]? = some i) ∧
      (∀ i ∈ ys, ∃ l ∈ labels, List.lookup l labelLegend = some i) ∧
      (∀ l ∈ labels, ∃ i ∈ ys, List.lookup l labelLegend = some i) := by
  induction labels with
  | nil =>
    intro ys h
    simp only [labelsToInts, Option.some.injEq] at h
    subst h
    refine ⟨rfl, ?_, by simp, by simp⟩
    intro k l hk
    simp at hk
  | cons l rest ih =>
    intro ys h
    unfold labelsToInts at h
    cases hl : List.lookup l labelLegend with
    | none => rw [hl] at h; exact absurd h (by simp)
    | some i =>
      rw [hl] at h
      cases hr : labelsToInts rest with
      | none => rw [hr] at h; exact absurd h (by simp)
      | some is =>
        rw [hr] at h
        simp only [Option.some.injEq] at h
        subst h
        obtain ⟨ih1, ih2, ih3, ih4⟩ := ih is hr
        refine ⟨by simp [ih1], ?_, ?_, ?_⟩
        · intro k lk hk
          cases k with
          | zero =>
            simp only [List.getElem?_cons_zero, Option.some.injEq] at hk
            subst hk
            exact ⟨i, hl, by simp⟩
          | succ k2 =>
            simp only [List.getElem?_cons_succ] at hk ⊢
            exact ih2 k2 lk hk
        · intro j hj
          rcases List.mem_cons.mp hj with hj | hj
          · exact ⟨l, by simp, hj ▸ hl⟩
          · obtain ⟨l2, hl2, hlk⟩ := ih3 j hj
            exact ⟨l2, by simp [hl2], hlk⟩
        · intro l2 hl2
          rcases List.mem_cons.mp hl2 with hj | hj
          · exact ⟨i, by simp, hj ▸ hl⟩
          · obtain ⟨i2, hi2, hlk⟩ := ih4 l2 hj
            exact ⟨i2, by simp [hi2], hlk⟩

/-- C3: when every label is `"ham"` or `"spam"` and at least one `"spam"`
occurs (as in the input dataset), the one-hot matrix
`y = to_categorical(labelsAsInt)` has exactly one row per record, every row
has exactly 2 columns (the number of classes) and sums to exactly 1, and
the row of record `k` carries its single 1 at the column index the label
legend assigns to the record's label. -/
theorem one_hot_label_matrix (labels : List String) (ys : List Nat)
    (h : labelsToInts labels = some ys)
    (hall : ∀ l ∈ labels, l = "ham" ∨ l = "spam")
    (hspam : "spam" ∈ labels) :
    (to_categorical ys).length = labels.length ∧
    (∀ row ∈ to_categorical ys, row.length = 2 ∧ row.sum = 1) ∧
    (∀ (k : Nat) (l : String) (i : Nat),
      labels[k]? = some l → List.lookup l labelLegend = some i →
      (to_categorical ys)[k]? =
        some (List.map (fun j => if j = i then 1 else 0) (List.range 2))) := by
  obtain ⟨hlen, hpoint, hfrom, hto⟩ := labelsToInts_spec labels ys h
  have hle : ∀ i ∈ ys, i ≤ 1 := by
    intro i hi
    obtain ⟨l, hl, hlk⟩ := hfrom i hi
    rcases hall l hl with rfl | rfl
    · simp only [labelLegend] at hlk
      simp only [List.lookup] at hlk
      simp at hlk
      omega
    · simp only [labelLegend] at hlk
      simp only [List.lookup] at hlk
      simp at hlk
      omega
  have hone : 1 ∈ ys := by
    obtain ⟨i, hi, hlk⟩ := hto "spam" hspam
    have : i = 1 := by
      simp only [labelLegend, List.lookup] at hlk
      exact (by simpa using hlk : (1 : Nat) = i).symm
    exact this ▸ hi
  have hmax : ys.foldl max 0 = 1 :=
    foldl_max_eq_one ys 0 (by omega) hle (Or.inl hone)
  have hcat : to_categorical ys
      = ys.map (fun i => (List.range 2).map (fun j => if j = i then 1 else 0)) := by
    simp only [to_categorical, hmax]
  refine ⟨by simp [hcat, hlen], ?_, ?_⟩
  · intro row hrow
    rw [hcat] at hrow
    simp only [List.mem_map] at hrow
    obtain ⟨i, hiys, rfl⟩ := hrow
    have hi : i ≤ 1 := hle i hiys
    constructor
    · simp
    · have : i = 0 ∨ i = 1 := by omega
      rcases this with rfl | rfl <;> decide
  · intro k l i hk hlk
    obtain ⟨i2, hlk2, hys⟩ := hpoint k l hk
    have : i2 = i := by
      rw [hlk] at hlk2
      exact (by simpa using hlk2 : i = i2).symm
    subst this
    rw [hcat]
    rw [List.getElem?_map, hys]
    simp [Function.comp]

/-- Closed witness for `one_hot_label_matrix` on the concrete labels
`["ham", "spam", "spam"]`, whose integer form is `[0, 1, 1]`. -/
theorem one_hot_label_matrix_witness :
    (to_categorical [0, 1, 1]).length = labels0.length ∧
    (∀ row ∈ to_categorical [0, 1, 1], row.length = 2 ∧ row.sum = 1) ∧
    (∀ (k : Nat) (l : String) (i : Nat),
      labels0[k]? = some l → List.lookup l labelLegend = some i →
      (to_categorical [0, 1, 1])[k]? =
        some (List.map (fun j => if j = i then 1 else 0) (List.range 2))) :=
  one_hot_label_matrix labels0 [0, 1, 1] (by decide) (by decide) (by decide)

lemma mem_of_getElem_opt {l : List (List Nat)} {i : Nat} {a : List Nat}
    (h : l[i]? = some a) : a ∈ l := by
  have hi : i < l.length := by
    by_contra hc
    rw [List.getElem?_eq_none (by omega)] at h
    exact absurd h (by simp)
  rw [List.getElem?_eq_getElem hi] at h
  simp only [Option.some.injEq] at h
  exact h ▸ l.getElem_mem hi

lemma X_train_row_mem {labels texts : List String} {perm : List Nat}
    {data : TrainingData} (h : prepareDataset labels texts perm = some data) :
    ∀ row ∈ data.X_train, row ∈ prepX texts := by
  unfold prepareDataset at h
  split at h
  · exact absurd h (by simp)
  · simp only [Option.some.injEq] at h
    subst h
    intro row hrow
    simp only [train_test_split, List.mem_filterMap] at hrow
    obtain ⟨i, _, hi⟩ := hrow
    exact mem_of_getElem_opt hi

/-- C6: the model the trainer builds on any prepared bundle is exactly the
architecture the spec states — embedding of the 280-word vocabulary cap
into 128 dimensions over length-300 input rows, spatial dropout, a single
LSTM of 196 units with input and recurrent dropout 0.3, a dense 2-unit
softmax output — compiled with categorical cross-entropy and Adam, and it
is fitted for exactly 3 epochs in mini-batches of 32 validating against the
held-out test partition. -/
theorem model_architecture_as_specified (labels texts : List String) (perm : List Nat)
    (data : TrainingData) (h : prepareDataset labels texts perm = some data)
    (hne : data.X_train ≠ []) :
    buildModel data = specModelConfig ∧
    fitRun data = ⟨32, 3, data.X_test, data.y_test⟩ := by
  have hrow : data.X_train.headD [] ∈ prepX texts := by
    cases hx : data.X_train with
    | nil => exact absurd hx hne
    | cons r rest =>
      have : r ∈ data.X_train := by simp [hx]
      simpa [hx] using X_train_row_mem h r this
  have hlen : (data.X_train.headD []).length = MAX_SEQ_LENGTH := by
    simp only [prepX, pad_sequences, List.mem_map] at hrow
    obtain ⟨s, _, hs⟩ := hrow
    rw [← hs]
    exact padOne_length _ _
  have hmw : data.max_words = MAX_NUM_WORDS := by
    unfold prepareDataset at h
    split at h
    · exact absurd h (by simp)
    · simp only [Option.some.injEq] at h
      subst h
      rfl
  constructor
  · simp only [buildModel, specModelConfig, hmw, hlen]
    rfl
  · rfl

set_option maxRecDepth 40000 in
/-- Closed witness for `model_architecture_as_specified` on the concrete
three-row input, whose train partition is nonempty. -/
theorem model_architecture_as_specified_witness :
    buildModel data0 = specModelConfig ∧
    fitRun data0 = ⟨32, 3, data0.X_test, data0.y_test⟩ :=
  model_architecture_as_specified labels0 texts0 perm0 data0 (by rfl) (by decide)

/-- C7: the exported metadata artifact is a structure with exactly the four
keys `label_legend_inverted`, `label_legend`, `max_seq_length`, `max_words`,
and on every prepared bundle its values are exactly the constants of the
dataset-preparation stage, carried through the bundle unchanged: the legend
`{"ham": 0, "spam": 1}`, its inverted form `{"0": "ham", "1": "spam"}`,
300 and 280. -/
theorem metadata_exact_values (labels texts : List String) (perm : List Nat)
    (data : TrainingData) (h : prepareDataset labels texts perm = some data) :
    metadataForExport data
      = ⟨[("0", "ham"), ("1", "spam")], [("ham", 0), ("spam", 1)], 300, 280⟩ ∧
    metadataForExport data
      = ⟨labelLegendInverted, labelLegend, MAX_SEQ_LENGTH, MAX_NUM_WORDS⟩ := by
  unfold prepareDataset at h
  split at h
  · exact absurd h (by simp)
  · simp only [Option.some.injEq] at h
    subst h
    exact ⟨rfl, rfl⟩

set_option maxRecDepth 40000 in
/-- Closed witness for `metadata_exact_values` on the concrete three-row
input. -/
theorem metadata_exact_values_witness :
    metadataForExport data0
      = ⟨[("0", "ham"), ("1", "spam")], [("ham", 0), ("spam", 1)], 300, 280⟩ ∧
    metadataForExport data0
      = ⟨labelLegendInverted, labelLegend, MAX_SEQ_LENGTH, MAX_NUM_WORDS⟩ :=
  metadata_exact_values labels0 texts0 perm0 data0 (by rfl)

/-- C9: the label legend is exactly the two-class mapping
`{"ham": 0, "spam": 1}` and `labelLegendInverted` is its inverse under the
code's `str(i)` keying: applying the legend then the inverted legend
returns every label name, applying the inverted legend then the legend
returns every class index, and there are exactly two classes. -/
theorem label_legend_bijective :
    labelLegend = [("ham", 0), ("spam", 1)] ∧
    labelLegendInverted = [("0", "ham"), ("1", "spam")] ∧
    labelLegend.length = 2 ∧
    (∀ kv ∈ labelLegend, List.lookup (toString kv.2) labelLegendInverted = some kv.1) ∧
    (∀ kv ∈ labelLegendInverted,
      (List.lookup kv.2 labelLegend).map toString = some kv.1) := by
  refine ⟨rfl, rfl, rfl, ?_, ?_⟩ <;> decide

/-- C8: tokenization with a frozen tokenizer is deterministic and the
inference-time tokenize-and-pad pipeline reproduces exactly the encoding of
dataset preparation: for any tokenizer state, the sequence of a text does
not depend on its position in the corpus or on the other texts, and the
`k`-th row of the preparation matrix equals the single `xInput` row that
`predictSpamStatus` computes for the same text at `maxlen =
MAX_SEQ_LENGTH`. -/
theorem tokenize_pad_reproducible (tok : Tokenizer) (texts : List String)
    (t : String) (k : Nat) (hk : texts[k]? = some t) :
    (tok.texts_to_sequences texts)[k]? = some (tok.seqOne t) ∧
    tok.texts_to_sequences [t] = [tok.seqOne t] ∧
    (pad_sequences (tok.texts_to_sequences texts) MAX_SEQ_LENGTH)[k]?
      = some (padOne MAX_SEQ_LENGTH (tok.seqOne t)) ∧
    inferenceInput tok MAX_SEQ_LENGTH t = [padOne MAX_SEQ_LENGTH (tok.seqOne t)] := by
  refine ⟨?_, rfl, ?_, rfl⟩
  · rw [Tokenizer.texts_to_sequences, List.getElem?_map, hk]
    rfl
  · rw [pad_sequences, Tokenizer.texts_to_sequences, List.getElem?_map,
      List.getElem?_map, hk]
    rfl

/-- Closed witness for `tokenize_pad_reproducible`: the first corpus text
of the concrete three-text corpus under its fitted tokenizer. -/
theorem tokenize_pad_reproducible_witness :
    ((preparerTokenizer texts0).texts_to_sequences texts0)[0]?
      = some ((preparerTokenizer texts0).seqOne "a b") ∧
    (preparerTokenizer texts0).texts_to_sequences ["a b"]
      = [(preparerTokenizer texts0).seqOne "a b"] ∧
    (pad_sequences ((preparerTokenizer texts0).texts_to_sequences texts0) MAX_SEQ_LENGTH)[0]?
      = some (padOne MAX_SEQ_LENGTH ((preparerTokenizer texts0).seqOne "a b")) ∧
    inferenceInput (preparerTokenizer texts0) MAX_SEQ_LENGTH "a b"
      = [padOne MAX_SEQ_LENGTH ((preparerTokenizer texts0).seqOne "a b")] :=
  tokenize_pad_reproducible (preparerTokenizer texts0) texts0 "a b" 0 (by rfl)

/-- C10: for every text — in particular one with no in-vocabulary words,
whose tokenized sequence is empty and whose padded row is all zeroes — and
every trained network, `predictSpamStatus` returns a dictionary with
exactly one entry per class, keyed precisely by the inverted legend's class
names `"ham"` and `"spam"`, each mapped to one of the model's two output
probabilities for the padded input row. -/
theorem predict_labels_exact (spamModel : List Nat → ℚ × ℚ) (text : String)
    (tok : Tokenizer) :
    predictSpamStatus text spamModel MAX_SEQ_LENGTH labelLegendInverted tok
      = some [("ham", (spamModel (padOne MAX_SEQ_LENGTH (tok.seqOne text))).1),
              ("spam", (spamModel (padOne MAX_SEQ_LENGTH (tok.seqOne text))).2)] ∧
    (tok.seqOne text = [] →
      predictSpamStatus text spamModel MAX_SEQ_LENGTH labelLegendInverted tok
        = some [("ham", (spamModel (List.replicate MAX_SEQ_LENGTH 0)).1),
                ("spam", (spamModel (List.replicate MAX_SEQ_LENGTH 0)).2)]) := by
  have hmain : predictSpamStatus text spamModel MAX_SEQ_LENGTH labelLegendInverted tok
      = some [("ham", (spamModel (padOne MAX_SEQ_LENGTH (tok.seqOne text))).1),
              ("spam", (spamModel (padOne MAX_SEQ_LENGTH (tok.seqOne text))).2)] := by
    simp only [predictSpamStatus, pad_sequences, Tokenizer.texts_to_sequences,
      List.map_cons, List.map_nil, List.enum, List.enumFrom, List.mapM, List.mapM.loop,
      labelLegendInverted, labelLegend]
    rfl
  refine ⟨hmain, fun hempty => ?_⟩
  have hpad : padOne MAX_SEQ_LENGTH (tok.seqOne text) = List.replicate MAX_SEQ_LENGTH 0 := by
    rw [hempty, padOne_of_le (by simp)]
    simp
  rw [hmain, hpad]

/-- Closed witness for `predict_labels_exact`: an un-fitted tokenizer, under
which the text has no in-vocabulary words at all, and a constant network. -/
theorem predict_labels_exact_witness :
    predictSpamStatus "win a free phone" (fun _ => (1 / 4, 3 / 4)) MAX_SEQ_LENGTH
        labelLegendInverted (Tokenizer.init MAX_NUM_WORDS)
      = some [("ham", ((fun (_ : List Nat) => ((1 : ℚ) / 4, (3 : ℚ) / 4))
            (padOne MAX_SEQ_LENGTH ((Tokenizer.init MAX_NUM_WORDS).seqOne "win a free phone"))).1),
          ("spam", ((fun (_ : List Nat) => ((1 : ℚ) / 4, (3 : ℚ) / 4))
            (padOne MAX_SEQ_LENGTH ((Tokenizer.init MAX_NUM_WORDS).seqOne "win a free phone"))).2)] ∧
    ((Tokenizer.init MAX_NUM_WORDS).seqOne "win a free phone" = [] →
      predictSpamStatus "win a free phone" (fun _ => (1 / 4, 3 / 4)) MAX_SEQ_LENGTH
          labelLegendInverted (Tokenizer.init MAX_NUM_WORDS)
        = some [("ham", ((fun (_ : List Nat) => ((1 : ℚ) / 4, (3 : ℚ) / 4))
              (List.replicate MAX_SEQ_LENGTH (0 : Nat))).1),
            ("spam", ((fun (_ : List Nat) => ((1 : ℚ) / 4, (3 : ℚ) / 4))
              (List.replicate MAX_SEQ_LENGTH (0 : Nat))).2)]) :=
  predict_labels_exact (fun _ => (1 / 4, 3 / 4)) "win a free phone"
    (Tokenizer.init MAX_NUM_WORDS)

/-- Closed witness for `sequence_indices_in_range` on the concrete corpus
and a text mixing in-vocabulary and out-of-vocabulary words. -/
theorem sequence_indices_in_range_witness :
    (∀ i ∈ (preparerTokenizer texts0).seqOne "a zzz b", 1 ≤ i ∧ i < MAX_NUM_WORDS) ∧
    ((preparerTokenizer texts0).seqOne "a zzz b").length
      = ((textToWordSequence "a zzz b").filter
          (fun w => ((preparerTokenizer texts0).emit w).isSome)).length ∧
    (∀ i ∈ (preparerTokenizer texts0).seqOne "a zzz b", ∃ w ∈ textToWordSequence "a zzz b",
      (preparerTokenizer texts0).emit w = some i) :=
  sequence_indices_in_range texts0 "a zzz b"
